import Mathlib

/-!
Verification of `notion_script.py`, a script that walks a Notion block tree
and rewrites inline `$...$` math in textual blocks into equation rich-text
items.

Strings are modelled as `List Char`.  The regex
`MATH_PATTERN = re.compile(r"\$(.+?)\$", flags=re.DOTALL)` is modelled by an
executable leftmost, non-greedy matcher (`findMathMatch`) and its `finditer`
iteration (`findAllMatches`, fuelled by the input length, which always
suffices because every match consumes at least two characters).
-/

set_option autoImplicit false

/-- Characters stripped by Python's `str.strip()` (the `str.isspace` set). -/
def PYTHON_WHITESPACE : List Char :=
  [' ', '\t', '\n', '\x0b', '\x0c', '\r', '\x1c', '\x1d', '\x1e', '\x1f',
   '\x85', '\xa0', '\u1680', '\u2000', '\u2001', '\u2002', '\u2003', '\u2004',
   '\u2005', '\u2006', '\u2007', '\u2008', '\u2009', '\u200a', '\u2028',
   '\u2029', '\u202f', '\u205f', '\u3000']

/-- Python's `s.strip()`: drop leading and trailing whitespace. -/
def pyStrip (s : List Char) : List Char :=
  ((s.dropWhile (PYTHON_WHITESPACE.contains ·)).reverse.dropWhile
    (PYTHON_WHITESPACE.contains ·)).reverse

/-- The `UNICODE_TO_LATEX` dict of the script (lines 20-41), in insertion
order, which Python's `dict` iteration preserves. -/
def UNICODE_TO_LATEX : List (Char × List Char) :=
  [('≥', "\\geq".data),
   ('≤', "\\leq".data),
   ('≠', "\\ne".data),
   ('±', "\\pm".data),
   ('×', "\\times".data),
   ('÷', "\\div".data),
   ('√', "\\sqrt\x7b\x7d".data),
   ('→', "\\to".data),
   ('⇒', "\\Rightarrow".data),
   ('⇔', "\\Leftrightarrow".data),
   ('∞', "\\infty".data),
   ('≈', "\\approx".data),
   ('∑', "\\sum".data),
   ('∫', "\\int".data),
   ('∈', "\\in".data),
   ('∉', "\\notin".data),
   ('∧', "\\land".data),
   ('∨', "\\lor".data),
   ('⋅', "\\cdot".data),
   ('•', "\\cdot".data)]

/-- Python's `expr.replace(u, latex)` for a one-character pattern `u`:
replace every occurrence of the character `u` by the string `rep`. -/
def replaceChar (u : Char) (rep : List Char) : List Char → List Char
  | [] => []
  | c :: rest => (if c = u then rep else [c]) ++ replaceChar u rep rest

/-- The script's `normalize_latex` (lines 43-47): apply each table entry's
substitution in sequence over the whole string. -/
def normalize_latex (expr : List Char) : List Char :=
  UNICODE_TO_LATEX.foldl (fun e p => replaceChar p.1 p.2 e) expr

/-- Split a string at its first `$`: `splitAtDollar l = some (p, r)` means
`l = p ++ '$' :: r` with no `$` in `p`. -/
def splitAtDollar : List Char → Option (List Char × List Char)
  | [] => none
  | c :: rest =>
    if c = '$' then some ([], rest)
    else (splitAtDollar rest).map (fun pr => (c :: pr.1, pr.2))

/-- Given the text after an opening `$`, find the non-greedy capture: the
shortest nonempty prefix followed by a `$` (the regex piece `(.+?)\$`).
Returns the capture and the text after the closing `$`. -/
def findClose (l : List Char) : Option (List Char × List Char) :=
  match l with
  | [] => none
  | c :: rest => (splitAtDollar rest).map (fun pr => (c :: pr.1, pr.2))

/-- Leftmost match of `MATH_PATTERN` (line 85, `r"\$(.+?)\$"` with DOTALL):
`findMathMatch s = some (p, cap, r)` means the leftmost non-greedy match
decomposes `s` as `p ++ '$' :: cap ++ '$' :: r` with capture `cap`.
`none` models `re.search` finding no match. -/
def findMathMatch : List Char → Option (List Char × List Char × List Char)
  | [] => none
  | c :: rest =>
    if c = '$' then
      match findClose rest with
      | some (cap, r) => some ([], cap, r)
      | none => (findMathMatch rest).map (fun t => ('$' :: t.1, t.2.1, t.2.2))
    else (findMathMatch rest).map (fun t => (c :: t.1, t.2.1, t.2.2))

/-- Fuelled iteration of `findMathMatch`, modelling `MATH_PATTERN.finditer`:
returns the list of (gap before match, capture) pairs and the trailing text
after the last match.  Each step recurses on the text after the closing `$`. -/
def findAllMatchesAux : Nat → List Char → List (List Char × List Char) × List Char
  | 0, s => ([], s)
  | fuel + 1, s =>
    match findMathMatch s with
    | none => ([], s)
    | some (p, cap, r) =>
      let rest := findAllMatchesAux fuel r
      ((p, cap) :: rest.1, rest.2)

/-- All matches of `MATH_PATTERN` in `s`, with fuel `s.length`, which is
always enough (each match consumes at least two characters). -/
def findAllMatches (s : List Char) : List (List Char × List Char) × List Char :=
  findAllMatchesAux s.length s

/-- One rich-text item as the script reads and writes it: the dict fields
`type`, `text.content` (for `"text"` items), `equation.expression` (for
`"equation"` items) and the API-provided `plain_text` (absent, i.e. `[]`,
on items the script builds itself). -/
structure RTItem where
  type : String
  content : List Char
  expression : List Char
  plain_text : List Char
deriving Repr, DecidableEq

/-- A `{"type": "text", "text": {"content": c}}` item as built by the script. -/
def mkTextItem (c : List Char) : RTItem :=
  { type := "text", content := c, expression := [], plain_text := [] }

/-- An `{"type": "equation", "equation": {"expression": e}}` item as built by
the script. -/
def mkEquationItem (e : List Char) : RTItem :=
  { type := "equation", content := [], expression := e, plain_text := [] }

/-- The script's `build_rich_text_from_text_with_math` (lines 137-178):
for each match emit the nonempty gap as a text item and the stripped,
normalized capture as an equation item; emit the nonempty trailing text;
if nothing was emitted at all, fall back to one text item with the whole
input. -/
def build_rich_text_from_text_with_math (text : List Char) : List RTItem :=
  let fm := findAllMatches text
  let rich :=
    (fm.1.flatMap (fun pc =>
      (if pc.1 ≠ [] then [mkTextItem pc.1] else [])
        ++ [mkEquationItem (normalize_latex (pyStrip pc.2))]))
    ++ (if fm.2 ≠ [] then [mkTextItem fm.2] else [])
  if rich = [] then [mkTextItem text] else rich

/-- Concatenation of the contents of the `"text"` items of a rich-text
array, ignoring equation items. -/
def plainConcat (items : List RTItem) : List Char :=
  (items.map (fun i => if i.type = "text" then i.content else [])).flatten

theorem splitAtDollar_eq : ∀ {l p r : List Char},
    splitAtDollar l = some (p, r) → l = p ++ '$' :: r := by
  intro l
  induction l with
  | nil => intro p r h; simp [splitAtDollar] at h
  | cons c rest ih =>
    intro p r h
    by_cases hc : c = '$'
    · rw [splitAtDollar, if_pos hc] at h
      simp only [Option.some.injEq, Prod.mk.injEq] at h
      obtain ⟨hp, hr⟩ := h
      subst hp; subst hr; simp [hc]
    · rw [splitAtDollar, if_neg hc] at h
      cases hsp : splitAtDollar rest with
      | none => rw [hsp] at h; simp at h
      | some pr =>
        rw [hsp] at h
        simp only [Option.map_some', Option.some.injEq, Prod.mk.injEq] at h
        obtain ⟨hp, hr⟩ := h
        subst hp; subst hr
        simpa using congrArg (c :: ·) (ih hsp)

theorem findClose_eq {l cap r : List Char} (h : findClose l = some (cap, r)) :
    l = cap ++ '$' :: r ∧ cap ≠ [] := by
  match l with
  | [] => simp [findClose] at h
  | c :: rest =>
    rw [findClose] at h
    cases hsp : splitAtDollar rest with
    | none => rw [hsp] at h; simp at h
    | some pr =>
      rw [hsp] at h
      simp only [Option.map_some', Option.some.injEq, Prod.mk.injEq] at h
      obtain ⟨hp, hr⟩ := h
      subst hp; subst hr
      constructor
      · simpa using congrArg (c :: ·) (splitAtDollar_eq hsp)
      · simp

theorem findMathMatch_eq : ∀ {s p cap r : List Char},
    findMathMatch s = some (p, cap, r) → s = p ++ '$' :: cap ++ '$' :: r := by
  intro s
  induction s with
  | nil => intro p cap r h; simp [findMathMatch] at h
  | cons c rest ih =>
    intro p cap r h
    by_cases hc : c = '$'
    · cases hfc : findClose rest with
      | some cr =>
        obtain ⟨cap0, r0⟩ := cr
        have hrest := findClose_eq hfc
        rw [findMathMatch, if_pos hc, hfc] at h
        simp only [Option.some.injEq, Prod.mk.injEq] at h
        obtain ⟨hp, hcap, hr⟩ := h
        subst hp; subst hcap; subst hr
        simpa [hc] using congrArg (c :: ·) hrest.1
      | none =>
        rw [findMathMatch, if_pos hc, hfc] at h
        cases hm : findMathMatch rest with
        | none => rw [hm] at h; simp at h
        | some t =>
          rw [hm] at h
          simp only [Option.map_some', Option.some.injEq, Prod.mk.injEq] at h
          obtain ⟨hp, hcap, hr⟩ := h
          subst hp; subst hcap; subst hr
          simpa [hc] using congrArg (c :: ·) (ih hm)
    · rw [findMathMatch, if_neg hc] at h
      cases hm : findMathMatch rest with
      | none => rw [hm] at h; simp at h
      | some t =>
        rw [hm] at h
        simp only [Option.map_some', Option.some.injEq, Prod.mk.injEq] at h
        obtain ⟨hp, hcap, hr⟩ := h
        subst hp; subst hcap; subst hr
        simpa using congrArg (c :: ·) (ih hm)

theorem findAllMatchesAux_reconstruct : ∀ (fuel : Nat) (s : List Char),
    s = ((findAllMatchesAux fuel s).1.map
          (fun pc => pc.1 ++ '$' :: (pc.2 ++ ['$']))).flatten
        ++ (findAllMatchesAux fuel s).2 := by
  intro fuel
  induction fuel with
  | zero => intro s; simp [findAllMatchesAux]
  | succ fuel ih =>
    intro s
    cases hm : findMathMatch s with
    | none => simp [findAllMatchesAux, hm]
    | some t =>
      obtain ⟨p, cap, r⟩ := t
      have hs := findMathMatch_eq hm
      simp only [findAllMatchesAux, hm, List.map_cons, List.flatten_cons]
      rw [hs]
      conv_lhs => rw [ih r]
      simp

theorem plainConcat_append (a b : List RTItem) :
    plainConcat (a ++ b) = plainConcat a ++ plainConcat b := by
  simp [plainConcat]

theorem plainConcat_flatMap (ms : List (List Char × List Char)) :
    plainConcat (ms.flatMap (fun pc =>
      (if pc.1 ≠ [] then [mkTextItem pc.1] else [])
        ++ [mkEquationItem (normalize_latex (pyStrip pc.2))]))
      = (ms.map Prod.fst).flatten := by
  induction ms with
  | nil => simp [plainConcat]
  | cons pc rest ih =>
    rw [List.flatMap_cons, plainConcat_append, ih]
    by_cases h : pc.1 = [] <;>
      simp [h, plainConcat, mkTextItem, mkEquationItem]

theorem findAllMatches_reconstruct (s : List Char) :
    s = ((findAllMatches s).1.map
          (fun pc => pc.1 ++ '$' :: (pc.2 ++ ['$']))).flatten
        ++ (findAllMatches s).2 :=
  findAllMatchesAux_reconstruct s.length s

/-- The item list built by `build_rich_text_from_text_with_math` before its
defensive no-match fallback. -/
def richItems (s : List Char) : List RTItem :=
  ((findAllMatches s).1.flatMap (fun pc =>
    (if pc.1 ≠ [] then [mkTextItem pc.1] else [])
      ++ [mkEquationItem (normalize_latex (pyStrip pc.2))]))
  ++ (if (findAllMatches s).2 ≠ [] then [mkTextItem (findAllMatches s).2] else [])

theorem build_eq_if (s : List Char) :
    build_rich_text_from_text_with_math s =
      if richItems s = [] then [mkTextItem s] else richItems s := rfl

theorem richItems_nil {s : List Char} (h : richItems s = []) :
    (findAllMatches s).1 = [] ∧ (findAllMatches s).2 = [] := by
  unfold richItems at h
  rcases List.append_eq_nil.1 h with ⟨hms, htail⟩
  constructor
  · cases hfm : (findAllMatches s).1 with
    | nil => rfl
    | cons pc rest => rw [hfm] at hms; simp at hms
  · by_cases h2 : (findAllMatches s).2 = []
    · exact h2
    · rw [if_pos h2] at htail; simp at htail

theorem plainConcat_richItems (s : List Char) :
    plainConcat (richItems s)
      = ((findAllMatches s).1.map Prod.fst).flatten ++ (findAllMatches s).2 := by
  unfold richItems
  rw [plainConcat_append, plainConcat_flatMap]
  by_cases h2 : (findAllMatches s).2 = [] <;>
    simp [h2, plainConcat, mkTextItem]

/-- C1: concatenating the content of all plain-text items produced by
`build_rich_text_from_text_with_math`, in order and ignoring equation items,
reproduces the input with every matched `$...$` region (delimiters included)
removed.  The first conjunct shows the match decomposition is lossless
(input = gaps interleaved with the matched `$cap$` regions plus trailing
text); the second shows the plain items concatenate to exactly the gaps
plus the trailing text, i.e. the input with the matched regions removed. -/
theorem c1_plain_segments_reconstruct (s : List Char) :
    s = ((findAllMatches s).1.map
          (fun pc => pc.1 ++ '$' :: (pc.2 ++ ['$']))).flatten
        ++ (findAllMatches s).2
    ∧ plainConcat (build_rich_text_from_text_with_math s)
        = ((findAllMatches s).1.map Prod.fst).flatten ++ (findAllMatches s).2 := by
  refine ⟨findAllMatches_reconstruct s, ?_⟩
  rw [build_eq_if]
  by_cases hr : richItems s = []
  · obtain ⟨h1, h2⟩ := richItems_nil hr
    have hsnil : s = [] := by
      have h := findAllMatches_reconstruct s
      rw [h1, h2] at h
      simpa using h
    subst hsnil
    rw [if_pos hr]
    simp [plainConcat, mkTextItem, h1, h2]
  · rw [if_neg hr, plainConcat_richItems]

/-- C6: segmenting `"rate $x ≥ 0$ please"` yields plain `"rate "`, the math
expression `"x \geq 0"` (the capture stripped and `≥` normalized), and
plain `" please"`. -/
theorem c6_example_segmentation :
    build_rich_text_from_text_with_math "rate $x ≥ 0$ please".data =
      [mkTextItem "rate ".data,
       mkEquationItem "x \\geq 0".data,
       mkTextItem " please".data] := by decide

/-- C7: when the pattern finds no match (in particular when the input has no
`$` at all, and also for the empty string) the segmenter returns a single
plain item carrying the entire input. -/
theorem c7_no_match_single_plain (s : List Char) :
    ('$' ∉ s → findMathMatch s = none) ∧
    (findMathMatch s = none →
      build_rich_text_from_text_with_math s = [mkTextItem s]) := by
  constructor
  · induction s with
    | nil => intro _; rfl
    | cons c rest ih =>
      intro hd
      have hc : ¬ c = '$' := fun h => hd (by simp [h])
      rw [findMathMatch, if_neg hc, ih (fun hm => hd (List.mem_cons_of_mem _ hm))]
      rfl
  · intro hn
    have haux : ∀ fuel, findAllMatchesAux fuel s = ([], s) := by
      intro fuel
      cases fuel with
      | zero => rfl
      | succ fuel => rw [findAllMatchesAux, hn]
    simp only [build_rich_text_from_text_with_math, findAllMatches, haux]
    cases s with
    | nil => simp
    | cons c rest => simp

/-- C7 witness: on `"hello"` (no `$`) the pattern finds no match and the
segmenter returns the single plain item `"hello"`. -/
theorem c7_no_match_single_plain_witness :
    findMathMatch "hello".data = none ∧
    build_rich_text_from_text_with_math "hello".data = [mkTextItem "hello".data] := by
  have h := c7_no_match_single_plain "hello".data
  exact ⟨h.1 (by decide), h.2 (h.1 (by decide))⟩

/-- C8: on `"a $ $b"` the non-greedy pattern matches from the first `$`
across to the later `$` (capturing `" "`), so the segmenter yields plain
`"a "`, a math item whose expression is the stripped capture (the empty
string), and plain `"b"`. -/
theorem c8_odd_dollars_match_across :
    findMathMatch "a $ $b".data = some ("a ".data, " ".data, "b".data) ∧
    build_rich_text_from_text_with_math "a $ $b".data =
      [mkTextItem "a ".data, mkEquationItem [], mkTextItem "b".data] := by
  decide

theorem mem_replaceChar {c u : Char} {rep : List Char} :
    ∀ {s : List Char}, c ∈ replaceChar u rep s → c ∈ rep ∨ c ∈ s := by
  intro s
  induction s with
  | nil => intro h; simp [replaceChar] at h
  | cons d rest ih =>
    intro h
    rw [replaceChar] at h
    rcases List.mem_append.1 h with h1 | h1
    · by_cases hd : d = u
      · rw [if_pos hd] at h1; exact Or.inl h1
      · rw [if_neg hd] at h1
        simp at h1
        exact Or.inr (by simp [h1])
    · rcases ih h1 with h2 | h2
      · exact Or.inl h2
      · exact Or.inr (List.mem_cons_of_mem _ h2)

theorem replaceChar_not_mem {u : Char} {rep : List Char} (hrep : u ∉ rep) :
    ∀ s, u ∉ replaceChar u rep s := by
  intro s
  induction s with
  | nil => simp [replaceChar]
  | cons d rest ih =>
    rw [replaceChar]
    intro hmem
    rcases List.mem_append.1 hmem with h1 | h1
    · by_cases hd : d = u
      · rw [if_pos hd] at h1; exact hrep h1
      · rw [if_neg hd] at h1
        simp at h1
        exact hd h1.symm
    · exact ih h1

theorem replaceChar_id {u : Char} {rep : List Char} :
    ∀ {s : List Char}, u ∉ s → replaceChar u rep s = s := by
  intro s
  induction s with
  | nil => intro _; rfl
  | cons d rest ih =>
    intro h
    have hd : ¬ d = u := fun hdu => h (by simp [hdu])
    rw [replaceChar, if_neg hd, ih (fun hm => h (List.mem_cons_of_mem _ hm))]
    rfl

theorem foldl_replace_not_mem (k : Char) :
    ∀ (T : List (Char × List Char)) (e : List Char),
      (∀ p ∈ T, k ∉ p.2) →
      (k ∉ e ∨ k ∈ T.map Prod.fst) →
      k ∉ T.foldl (fun e p => replaceChar p.1 p.2 e) e := by
  intro T
  induction T with
  | nil =>
    intro e _ he
    simpa using he.resolve_right (by simp)
  | cons p T ih =>
    intro e hrep he
    rw [List.foldl_cons]
    apply ih _ (fun q hq => hrep q (List.mem_cons_of_mem _ hq))
    by_cases hk : k = p.1
    · left
      subst hk
      exact replaceChar_not_mem (hrep p (List.mem_cons_self _ _)) e
    · rcases he with he | he
      · left
        intro hmem
        rcases mem_replaceChar hmem with h | h
        · exact hrep p (List.mem_cons_self _ _) h
        · exact he h
      · right
        rw [List.map_cons] at he
        rcases List.mem_cons.1 he with h | h
        · exact absurd h hk
        · exact h

/-- No replacement string of `UNICODE_TO_LATEX` contains any of the table's
source symbols (all replacements are ASCII, all sources are not). -/
theorem table_replacements_key_free :
    ∀ k ∈ UNICODE_TO_LATEX.map Prod.fst, ∀ p ∈ UNICODE_TO_LATEX, k ∉ p.2 := by
  decide

theorem normalize_latex_no_keys (s : List Char) :
    ∀ k ∈ UNICODE_TO_LATEX.map Prod.fst, k ∉ normalize_latex s := by
  intro k hk
  exact foldl_replace_not_mem k UNICODE_TO_LATEX s
    (fun p hp => table_replacements_key_free k hk p hp) (Or.inr hk)

theorem foldl_replace_id :
    ∀ (T : List (Char × List Char)) (e : List Char),
      (∀ p ∈ T, p.1 ∉ e) →
      T.foldl (fun e p => replaceChar p.1 p.2 e) e = e := by
  intro T
  induction T with
  | nil => intro e _; rfl
  | cons p T ih =>
    intro e h
    rw [List.foldl_cons, replaceChar_id (h p (List.mem_cons_self _ _))]
    exact ih e (fun q hq => h q (List.mem_cons_of_mem _ hq))

/-- C10: `normalize_latex` is idempotent, and (the reason) no replacement
output of `UNICODE_TO_LATEX` contains any table entry's source symbol, so
a rule's output is never rewritten by a later pass. -/
theorem c10_normalize_latex_idempotent (s : List Char) :
    normalize_latex (normalize_latex s) = normalize_latex s ∧
    ∀ p ∈ UNICODE_TO_LATEX, ∀ k ∈ UNICODE_TO_LATEX.map Prod.fst, k ∉ p.2 := by
  constructor
  · show UNICODE_TO_LATEX.foldl (fun e p => replaceChar p.1 p.2 e)
      (normalize_latex s) = normalize_latex s
    exact foldl_replace_id UNICODE_TO_LATEX (normalize_latex s)
      (fun p hp => normalize_latex_no_keys s p.1 (List.mem_map_of_mem _ hp))
  · intro p hp k hk
    exact table_replacements_key_free k hk p hp

/-- C10 witness: idempotence evaluated on `"x ≥ 0"`, and the key-freeness
instance for the `≥` entry against the `≥` source symbol. -/
theorem c10_normalize_latex_idempotent_witness :
    normalize_latex (normalize_latex "x ≥ 0".data) = normalize_latex "x ≥ 0".data ∧
    '≥' ∉ ('≥', "\\geq".data).2 := by
  have h := c10_normalize_latex_idempotent "x ≥ 0".data
  exact ⟨h.1, h.2 ('≥', "\\geq".data) (by decide) '≥' (by decide)⟩

/-- The `TEXTUAL_BLOCK_TYPES` set of the script (lines 50-61). -/
def TEXTUAL_BLOCK_TYPES : List String :=
  ["paragraph", "heading_1", "heading_2", "heading_3", "bulleted_list_item",
   "numbered_list_item", "to_do", "toggle", "quote", "callout"]

/-- The `SKIP_BLOCK_TYPES` set of the script (lines 64-83). -/
def SKIP_BLOCK_TYPES : List String :=
  ["equation", "code", "bookmark", "image", "video", "file", "pdf", "divider",
   "table", "table_row", "column_list", "column", "synced_block",
   "link_to_page", "child_database", "child_page", "breadcrumb",
   "table_of_contents"]

/-- A Notion block as the walker reads it: `id`, `type`, the rich-text array
stored under the type-named key, and the `has_children` flag.  `children`
holds what `fetch_block_children b.id` would return (pagination abstracted
away), and `updateOk` is the network oracle for this block's update call:
`true` means the PATCH round of `update_block_rich_text` ends in success,
`false` means it ends by raising `requests.HTTPError`. -/
inductive Block where
  | mk (id : String) (type : String) (rich_text : List RTItem)
      (has_children : Bool) (updateOk : Bool) (children : List Block)

def Block.id : Block → String
  | .mk i _ _ _ _ _ => i

def Block.type : Block → String
  | .mk _ t _ _ _ _ => t

def Block.rich_text : Block → List RTItem
  | .mk _ _ rt _ _ _ => rt

def Block.has_children : Block → Bool
  | .mk _ _ _ hc _ _ => hc

def Block.updateOk : Block → Bool
  | .mk _ _ _ _ u _ => u

def Block.children : Block → List Block
  | .mk _ _ _ _ _ cs => cs

/-- The script's `block_has_math_dollars` (lines 121-135): `False` for
non-textual types; otherwise whether some rich-text item of type `"text"`
has a `content` containing `$` on which `MATH_PATTERN.search` succeeds. -/
def block_has_math_dollars (b : Block) : Bool :=
  if b.type ∈ TEXTUAL_BLOCK_TYPES then
    b.rich_text.any (fun item =>
      item.type == "text" && item.content.contains '$'
        && (findMathMatch item.content).isSome)
  else false

/-- The flattening of lines 190-193: concatenation of every rich-text item's
`plain_text` field (`item.get("plain_text", "")`, with `[]` as the absent
default). -/
def flattenPlainText (b : Block) : List Char :=
  (b.rich_text.map RTItem.plain_text).flatten

/-- One call to `update_block_rich_text` as issued by the walker: the block
id, the type-named payload key, and the new rich-text array. -/
structure UpdateCall where
  block_id : String
  block_type : String
  rich_text : List RTItem
deriving Repr, DecidableEq

/-- The script's `rewrite_block_inline_math` (lines 180-201): flatten the
rich-text via `plain_text`, test the flattened string for `$` and a
`MATH_PATTERN` match, and when math is present issue the update call with
the rebuilt array.  Returns the `changed` flag and the update call it
issues (`none` when unchanged). -/
def rewrite_block_inline_math (b : Block) : Bool × Option UpdateCall :=
  let full_text := flattenPlainText b
  let changed := full_text.contains '$' && (findMathMatch full_text).isSome
  (changed,
   if changed then
     some ⟨b.id, b.type, build_rich_text_from_text_with_math full_text⟩
   else none)

/-- Observable effects of one `walk_and_fix` run: block ids visited by the
loop in order, update calls issued, `[WARN]` log lines (block id and type)
printed by the per-block exception handler, and the returned
`total_changed`. -/
structure WalkResult where
  visited : List String
  updates : List UpdateCall
  warnLogs : List (String × String)
  count : Nat
deriving Repr, DecidableEq

def WalkResult.empty : WalkResult := ⟨[], [], [], 0⟩

def WalkResult.append (a b : WalkResult) : WalkResult :=
  ⟨a.visited ++ b.visited, a.updates ++ b.updates,
   a.warnLogs ++ b.warnLogs, a.count + b.count⟩

/-- The script's `walk_and_fix` (lines 203-238), run on a fetched children
list (`fetch_block_children` modelled as returning the stored `children`).
`fuel` bounds recursion depth; claims are stated at `fuel + 1`, one level
above the children.  Per child: a skip-type block is not rewritten but is
still recursed into when `has_children`; otherwise `block_has_math_dollars`
gates a call to `rewrite_block_inline_math`, whose update call either
succeeds (`updateOk`: `[INFO]` printed, counted) or raises
`requests.HTTPError`, which the handler turns into a `[WARN]` log with the
block's id and type; recursion into children then happens in both branches
whenever `has_children`. -/
def walk_and_fix : Nat → List Block → WalkResult
  | 0, _ => WalkResult.empty
  | fuel + 1, children =>
    (children.map (fun b =>
      if b.type ∈ SKIP_BLOCK_TYPES then
        let sub := if b.has_children then walk_and_fix fuel b.children
                   else WalkResult.empty
        { sub with visited := b.id :: sub.visited }
      else
        let rwres := rewrite_block_inline_math b
        let attempted := block_has_math_dollars b && rwres.1
        let sub := if b.has_children then walk_and_fix fuel b.children
                   else WalkResult.empty
        { visited := b.id :: sub.visited,
          updates := (if attempted then rwres.2.toList else []) ++ sub.updates,
          warnLogs := (if attempted && !b.updateOk then [(b.id, b.type)]
                       else []) ++ sub.warnLogs,
          count := (if attempted && b.updateOk then 1 else 0) + sub.count })
    ).foldr WalkResult.append WalkResult.empty

theorem WalkResult.append_empty (x : WalkResult) :
    WalkResult.append x WalkResult.empty = x := by
  simp [WalkResult.append, WalkResult.empty]

theorem walk_and_fix_cons (fuel : Nat) (b : Block) (rest : List Block) :
    walk_and_fix (fuel + 1) (b :: rest)
      = WalkResult.append (walk_and_fix (fuel + 1) [b])
          (walk_and_fix (fuel + 1) rest) := by
  simp only [walk_and_fix, List.map_cons, List.map_nil, List.foldr_cons,
    List.foldr_nil, WalkResult.append_empty]

theorem walk_single_skip (fuel : Nat) (b : Block)
    (h : b.type ∈ SKIP_BLOCK_TYPES) :
    walk_and_fix (fuel + 1) [b] =
      { visited := b.id :: (if b.has_children then walk_and_fix fuel b.children
                            else WalkResult.empty).visited,
        updates := (if b.has_children then walk_and_fix fuel b.children
                    else WalkResult.empty).updates,
        warnLogs := (if b.has_children then walk_and_fix fuel b.children
                     else WalkResult.empty).warnLogs,
        count := (if b.has_children then walk_and_fix fuel b.children
                  else WalkResult.empty).count } := by
  simp only [walk_and_fix, List.map_cons, List.map_nil, List.foldr_cons,
    List.foldr_nil]
  rw [if_pos h, WalkResult.append_empty]

theorem walk_single_textual (fuel : Nat) (b : Block)
    (h : b.type ∉ SKIP_BLOCK_TYPES) :
    walk_and_fix (fuel + 1) [b] =
      { visited := b.id :: (if b.has_children then walk_and_fix fuel b.children
                            else WalkResult.empty).visited,
        updates := (if block_has_math_dollars b && (rewrite_block_inline_math b).1
                    then (rewrite_block_inline_math b).2.toList else [])
          ++ (if b.has_children then walk_and_fix fuel b.children
              else WalkResult.empty).updates,
        warnLogs := (if block_has_math_dollars b && (rewrite_block_inline_math b).1
                        && !b.updateOk
                     then [(b.id, b.type)] else [])
          ++ (if b.has_children then walk_and_fix fuel b.children
              else WalkResult.empty).warnLogs,
        count := (if block_has_math_dollars b && (rewrite_block_inline_math b).1
                     && b.updateOk
                  then 1 else 0)
          + (if b.has_children then walk_and_fix fuel b.children
             else WalkResult.empty).count } := by
  simp only [walk_and_fix, List.map_cons, List.map_nil, List.foldr_cons,
    List.foldr_nil]
  rw [if_neg h, WalkResult.append_empty]

/-- The textual and skip type sets are disjoint. -/
theorem textual_not_skip :
    ∀ t ∈ TEXTUAL_BLOCK_TYPES, t ∉ SKIP_BLOCK_TYPES := by decide

theorem block_has_math_dollars_textual {b : Block}
    (h : block_has_math_dollars b = true) :
    b.type ∈ TEXTUAL_BLOCK_TYPES := by
  by_cases ht : b.type ∈ TEXTUAL_BLOCK_TYPES
  · exact ht
  · rw [block_has_math_dollars, if_neg ht] at h
    exact absurd h (by simp)

/-- C3: a block whose type is in the skip set is never passed to the update
operation, whatever its content: the single-child walk issues exactly the
update calls of the child recursion, counts and warns nothing of its own,
and still recurses into the block's children exactly when `has_children`. -/
theorem c3_skip_never_updated (fuel : Nat) (b : Block)
    (h : b.type ∈ SKIP_BLOCK_TYPES) :
    (walk_and_fix (fuel + 1) [b]).updates
        = (if b.has_children then walk_and_fix fuel b.children
           else WalkResult.empty).updates
    ∧ (walk_and_fix (fuel + 1) [b]).count
        = (if b.has_children then walk_and_fix fuel b.children
           else WalkResult.empty).count
    ∧ (walk_and_fix (fuel + 1) [b]).warnLogs
        = (if b.has_children then walk_and_fix fuel b.children
           else WalkResult.empty).warnLogs
    ∧ (walk_and_fix (fuel + 1) [b]).visited
        = b.id :: (if b.has_children then walk_and_fix fuel b.children
                   else WalkResult.empty).visited := by
  rw [walk_single_skip fuel b h]
  exact ⟨rfl, rfl, rfl, rfl⟩

/-- Skip-type block with math-looking textual content and one paragraph
child, used to witness C3. -/
def bSkipMath : Block :=
  .mk "skip-1" "code" [⟨"text", "$x ≥ 0$".data, [], "$x ≥ 0$".data⟩] true true
    [.mk "child-1" "paragraph" [⟨"text", "plain".data, [], "plain".data⟩]
      false true []]

/-- C3 witness: a `code` block containing `$x ≥ 0$` is never updated, yet its
child is still visited. -/
theorem c3_skip_never_updated_witness :
    bSkipMath.type ∈ SKIP_BLOCK_TYPES
    ∧ (walk_and_fix 2 [bSkipMath]).updates = []
    ∧ (walk_and_fix 2 [bSkipMath]).visited = ["skip-1", "child-1"] := by
  have h := c3_skip_never_updated 1 bSkipMath (by decide)
  refine ⟨by decide, ?_, ?_⟩
  · rw [h.1]; decide
  · rw [h.2.2.2]; decide

/-- C5: when the update for one block raises `requests.HTTPError`
(`updateOk = false` while the gate and the flattened-text test both hold),
the walker logs a warning with that block's id and type, does not count the
block in `total_changed`, still descends into its children when
`has_children`, and still processes the remaining siblings. -/
theorem c5_update_failure_isolated (fuel : Nat) (b : Block) (rest : List Block)
    (hgate : block_has_math_dollars b = true)
    (hch : (rewrite_block_inline_math b).1 = true)
    (hfail : b.updateOk = false) :
    (walk_and_fix (fuel + 1) [b]).warnLogs
        = (b.id, b.type) :: (if b.has_children then walk_and_fix fuel b.children
                             else WalkResult.empty).warnLogs
    ∧ (walk_and_fix (fuel + 1) [b]).count
        = (if b.has_children then walk_and_fix fuel b.children
           else WalkResult.empty).count
    ∧ (walk_and_fix (fuel + 1) [b]).visited
        = b.id :: (if b.has_children then walk_and_fix fuel b.children
                   else WalkResult.empty).visited
    ∧ walk_and_fix (fuel + 1) (b :: rest)
        = WalkResult.append (walk_and_fix (fuel + 1) [b])
            (walk_and_fix (fuel + 1) rest) := by
  have hns : b.type ∉ SKIP_BLOCK_TYPES :=
    textual_not_skip b.type (block_has_math_dollars_textual hgate)
  refine ⟨?_, ?_, ?_, walk_and_fix_cons fuel b rest⟩
  · rw [walk_single_textual fuel b hns]
    simp [hgate, hch, hfail]
  · rw [walk_single_textual fuel b hns]
    simp [hgate, hch, hfail]
  · rw [walk_single_textual fuel b hns]

/-- Paragraph block whose flattened text `$x$` needs rewriting but whose
update call fails, used to witness C5. -/
def bFailing : Block :=
  .mk "fail-1" "paragraph" [⟨"text", "$x$".data, [], "$x$".data⟩] false false []

/-- Paragraph sibling after the failing block, used to witness C5. -/
def bSibling : Block :=
  .mk "sib-1" "paragraph" [⟨"text", "$y$".data, [], "$y$".data⟩] false true []

/-- C5 witness: the failing block is warn-logged with its id and type and not
counted, while its successful sibling is still rewritten and counted. -/
theorem c5_update_failure_isolated_witness :
    bFailing.updateOk = false
    ∧ (walk_and_fix 1 [bFailing]).warnLogs = [("fail-1", "paragraph")]
    ∧ (walk_and_fix 1 [bFailing]).count = 0
    ∧ walk_and_fix 1 [bFailing, bSibling]
        = WalkResult.append (walk_and_fix 1 [bFailing])
            (walk_and_fix 1 [bSibling])
    ∧ (walk_and_fix 1 [bFailing, bSibling]).count = 1 := by
  have h := c5_update_failure_isolated 0 bFailing [bSibling]
    (by decide) (by decide) (by decide)
  refine ⟨by decide, ?_, ?_, h.2.2.2, by decide⟩
  · rw [h.1]; decide
  · rw [h.2.1]; decide

/-- Textual block whose math region is split across two text segments
(`"$x"` then `"y$"`): the flattened text `"$xy$"` contains a full `$...$`
region, but no single segment does. -/
def bSplitMath : Block :=
  .mk "split-1" "paragraph"
    [⟨"text", "$x".data, [], "$x".data⟩, ⟨"text", "y$".data, [], "y$".data⟩]
    false true []

/-- C2 counterexample: for the textual block `bSplitMath` math is present in
the flattened string, yet the walker issues no update call at all, because
the `block_has_math_dollars` gate tests each text segment's content
individually and none of them contains a complete `$...$` region. -/
theorem c2_counterexample_split_math :
    bSplitMath.type ∈ TEXTUAL_BLOCK_TYPES
    ∧ flattenPlainText bSplitMath = "$xy$".data
    ∧ (findMathMatch (flattenPlainText bSplitMath)).isSome = true
    ∧ block_has_math_dollars bSplitMath = false
    ∧ (walk_and_fix 1 [bSplitMath]).updates = [] := by decide

/-- C2 amended: for a textual-type block the walker first runs the
per-segment gate `block_has_math_dollars` (some single text segment's
content contains a complete `$...$` region); only when the gate passes does
`rewrite_block_inline_math` flatten the segments' `plain_text`, re-test the
flattened string, and — when math is present there — issue the update call
with the segmenter's output for the flattened string. -/
theorem c2_amended_gated_update (fuel : Nat) (b : Block)
    (h : b.type ∈ TEXTUAL_BLOCK_TYPES) :
    (walk_and_fix (fuel + 1) [b]).updates
      = (if block_has_math_dollars b
            && ((flattenPlainText b).contains '$'
                && (findMathMatch (flattenPlainText b)).isSome)
         then [⟨b.id, b.type,
               build_rich_text_from_text_with_math (flattenPlainText b)⟩]
         else [])
        ++ (if b.has_children then walk_and_fix fuel b.children
            else WalkResult.empty).updates := by
  have hns : b.type ∉ SKIP_BLOCK_TYPES := textual_not_skip b.type h
  rw [walk_single_textual fuel b hns]
  show (if block_has_math_dollars b && (rewrite_block_inline_math b).1
        then (rewrite_block_inline_math b).2.toList else []) ++ _ = _
  simp only [rewrite_block_inline_math]
  by_cases hc2 : '$' ∈ flattenPlainText b
      ∧ (findMathMatch (flattenPlainText b)).isSome = true
  · by_cases hg : block_has_math_dollars b = true
    · simp [hg, hc2]
    · simp [hg]
  · simp [hc2]

/-- Paragraph block with one text segment containing a full math region,
used to witness the amended C2. -/
def bGatedMath : Block :=
  .mk "gated-1" "paragraph"
    [⟨"text", "a $u ≥ v$ b".data, [], "a $u ≥ v$ b".data⟩] false true []

/-- C2 amended witness: for `bGatedMath` the gate and the flattened test both
pass and exactly the segmenter's output is sent in the update call. -/
theorem c2_amended_gated_update_witness :
    block_has_math_dollars bGatedMath = true
    ∧ (walk_and_fix 1 [bGatedMath]).updates
        = [⟨"gated-1", "paragraph",
            [mkTextItem "a ".data, mkEquationItem "u \\geq v".data,
             mkTextItem " b".data]⟩] := by
  have h := c2_amended_gated_update 0 bGatedMath (by decide)
  refine ⟨by decide, ?_⟩
  · rw [h]; decide

/-- An HTTP response as `update_block_rich_text` inspects it: the status
code and the parsed `Retry-After` header (`none` when the header is absent;
the code's `int(res.headers.get("Retry-After", "1"))` then yields 1). -/
structure HttpResponse where
  status_code : Nat
  retryAfter : Option Nat
deriving Repr, DecidableEq

/-- Result of an update round: normal return or a raised `requests.HTTPError`
carrying the offending status code. -/
inductive UpdateResult where
  | ok
  | httpError (status : Nat)
deriving Repr, DecidableEq

/-- Python `requests`' `res.raise_for_status()`: raises `HTTPError` (carrying
the status code) for 4xx/5xx responses, returns normally otherwise. -/
def raise_for_status (r : HttpResponse) : UpdateResult :=
  if 400 ≤ r.status_code ∧ r.status_code < 600 then .httpError r.status_code
  else .ok

/-- Observable effects of one `update_block_rich_text` call: the status codes
of the PATCH responses received in order, the sleep durations, and the final
outcome (`ok` or a raised `HTTPError` with its status). -/
structure UpdateTrace where
  statuses : List Nat
  sleeps : List Nat
  result : UpdateResult
deriving Repr, DecidableEq

/-- The script's `update_block_rich_text` (lines 105-119), the network
modelled by the response `r1` to the first PATCH and the response `r2` the
server would give to a second PATCH: on a 429 first response, sleep for the
`Retry-After` duration (default 1) and retry exactly once; then
`raise_for_status` runs on whichever response was received last. -/
def update_block_rich_text (r1 r2 : HttpResponse) : UpdateTrace :=
  if r1.status_code = 429 then
    { statuses := [r1.status_code, r2.status_code],
      sleeps := [r1.retryAfter.getD 1],
      result := raise_for_status r2 }
  else
    { statuses := [r1.status_code],
      sleeps := [],
      result := raise_for_status r1 }

/-- C4: on a 429 first response the client sleeps once for the `Retry-After`
duration (1 when unspecified) and issues exactly one retry; a 200 on retry
ends in success with exactly one successful PATCH among the two issued; a
second 429 on the retry raises; and a non-429 first response is never
retried nor slept on, any failure status among them raising immediately. -/
theorem c4_rate_limit_retry_once (r1 r2 : HttpResponse) :
    (r1.status_code = 429 →
      (update_block_rich_text r1 r2).sleeps = [r1.retryAfter.getD 1]
      ∧ (update_block_rich_text r1 r2).statuses = [429, r2.status_code]
      ∧ (r2.status_code = 200 →
          (update_block_rich_text r1 r2).result = .ok
          ∧ ((update_block_rich_text r1 r2).statuses.filter
              (fun st => decide (st < 400))).length = 1)
      ∧ (r2.status_code = 429 →
          (update_block_rich_text r1 r2).result = .httpError 429))
    ∧ (r1.status_code ≠ 429 →
        (update_block_rich_text r1 r2).sleeps = []
        ∧ (update_block_rich_text r1 r2).statuses = [r1.status_code]
        ∧ (400 ≤ r1.status_code → r1.status_code < 600 →
            (update_block_rich_text r1 r2).result = .httpError r1.status_code)) := by
  constructor
  · intro h429
    refine ⟨?_, ?_, ?_, ?_⟩
    · simp [update_block_rich_text, h429]
    · simp [update_block_rich_text, h429]
    · intro h200
      refine ⟨?_, ?_⟩
      · simp [update_block_rich_text, h429, h200, raise_for_status]
      · simp [update_block_rich_text, h429, h200]
    · intro h4292
      simp [update_block_rich_text, h429, h4292, raise_for_status]
  · intro hne
    refine ⟨?_, ?_, ?_⟩
    · simp [update_block_rich_text, hne]
    · simp [update_block_rich_text, hne]
    · intro h4 h6
      simp [update_block_rich_text, hne, raise_for_status, h4, h6]

/-- C4 witness: `429 (Retry-After: 3)` then `200` gives one 3-unit delay,
success, and exactly one successful PATCH of the two; `429` then `429`
raises; a plain `400` raises at once with no delay and no retry. -/
theorem c4_rate_limit_retry_once_witness :
    (update_block_rich_text ⟨429, some 3⟩ ⟨200, none⟩).sleeps = [3]
    ∧ (update_block_rich_text ⟨429, some 3⟩ ⟨200, none⟩).result = .ok
    ∧ ((update_block_rich_text ⟨429, some 3⟩ ⟨200, none⟩).statuses.filter
        (fun st => decide (st < 400))).length = 1
    ∧ (update_block_rich_text ⟨429, none⟩ ⟨429, none⟩).result = .httpError 429
    ∧ (update_block_rich_text ⟨400, none⟩ ⟨200, none⟩).sleeps = []
    ∧ (update_block_rich_text ⟨400, none⟩ ⟨200, none⟩).result = .httpError 400 := by
  have h1 := c4_rate_limit_retry_once ⟨429, some 3⟩ ⟨200, none⟩
  have h2 := c4_rate_limit_retry_once ⟨429, none⟩ ⟨429, none⟩
  have h3 := c4_rate_limit_retry_once ⟨400, none⟩ ⟨200, none⟩
  exact ⟨(h1.1 rfl).1, ((h1.1 rfl).2.2.1 rfl).1, ((h1.1 rfl).2.2.1 rfl).2,
    (h2.1 rfl).2.2.2 rfl, (h3.2 (by decide)).1,
    (h3.2 (by decide)).2.2 (by decide) (by decide)⟩

/-- Outcome of the process entry: lines printed, the exit code (0 = normal
end), and the number of HTTP requests issued. -/
structure ProcessOutcome where
  printed : List String
  exitCode : Nat
  networkRequests : Nat
deriving Repr, DecidableEq

/-- Python truthiness of an `os.getenv` result: `None` and the empty string
are falsy. -/
def envTruthy (v : Option String) : Bool :=
  !(v.getD "" == "")

/-- The `__main__` guard (lines 246-250): when `NOTION_TOKEN` or
`NOTION_PAGE_ID` is falsy, print the configuration message and exit with
code 1 before `main()` — and hence before any network request — runs;
otherwise the process outcome is whatever `main()` produces. -/
def mainEntry (token pageId : Option String) (mainRun : ProcessOutcome) :
    ProcessOutcome :=
  if !envTruthy token || !envTruthy pageId then
    { printed := ["Please set NOTION_TOKEN and NOTION_PAGE_ID in your environment or .env file."],
      exitCode := 1,
      networkRequests := 0 }
  else mainRun

/-- C9: if the token or the page id is absent (or empty, which Python treats
as unset) the process prints the configuration message and exits with the
non-zero code 1, issuing zero network requests. -/
theorem c9_missing_config_fatal (token pageId : Option String)
    (mainRun : ProcessOutcome)
    (h : envTruthy token = false ∨ envTruthy pageId = false) :
    mainEntry token pageId mainRun =
      { printed := ["Please set NOTION_TOKEN and NOTION_PAGE_ID in your environment or .env file."],
        exitCode := 1,
        networkRequests := 0 }
    ∧ (mainEntry token pageId mainRun).exitCode ≠ 0
    ∧ (mainEntry token pageId mainRun).networkRequests = 0 := by
  have hcond : (!envTruthy token || !envTruthy pageId) = true := by
    rcases h with h | h <;> simp [h]
  unfold mainEntry
  rw [if_pos hcond]
  exact ⟨rfl, by decide, rfl⟩

/-- C9 witness: with an empty token and a set page id (and a `main()` that
would have issued 5 requests) the guard prints the message and exits 1 with
no network activity. -/
theorem c9_missing_config_fatal_witness :
    mainEntry (some "") (some "page-id") ⟨["Scanning"], 0, 5⟩ =
      { printed := ["Please set NOTION_TOKEN and NOTION_PAGE_ID in your environment or .env file."],
        exitCode := 1,
        networkRequests := 0 }
    ∧ (mainEntry (some "") (some "page-id") ⟨["Scanning"], 0, 5⟩).exitCode ≠ 0 := by
  have h := c9_missing_config_fatal (some "") (some "page-id")
    ⟨["Scanning"], 0, 5⟩ (Or.inl (by decide))
  exact ⟨h.1, h.2.1⟩

theorem findMathMatch_length {s p cap r : List Char}
    (h : findMathMatch s = some (p, cap, r)) : r.length + 2 ≤ s.length := by
  have hs := findMathMatch_eq h
  rw [hs]
  simp
  omega

/-- The fuel `s.length` used by `findAllMatches` is adequate: any larger
fuel returns the same matches, so the fuel bound never truncates the
iteration. -/
theorem findAllMatchesAux_fuel_stable : ∀ (fuel : Nat) (s : List Char),
    s.length ≤ fuel →
    findAllMatchesAux fuel s = findAllMatchesAux (fuel + 1) s := by
  intro fuel
  induction fuel with
  | zero =>
    intro s hs
    have hnil : s = [] := List.length_eq_zero.mp (Nat.le_zero.mp hs)
    subst hnil
    rfl
  | succ fuel ih =>
    intro s hs
    cases hm : findMathMatch s with
    | none => simp only [findAllMatchesAux, hm]
    | some t =>
      obtain ⟨p, cap, r⟩ := t
      have hlen := findMathMatch_length hm
      simp only [findAllMatchesAux, hm]
      rw [ih r (by omega)]
      rfl
